import Mathlib

/-!
Verification of the Highway consensus core (state.rs, vote.rs) and the
Pothole dependency spec (pothole.rs) of the CasperLabs repository.

Hashes and validator indices are modelled as natural numbers.  The Rust
HashMaps are modelled as association lists with replace-on-insert
semantics.  Rust panics (unwrap, assert, index out of bounds, expect) are
modelled by returning Option.none from the corresponding function; normal
fallible returns keep their own Option layer.
-/

/-- Association-list lookup, mirroring HashMap::get: the first entry with
the given key. -/
def alookup {α : Type} (k : Nat) : List (Nat × α) → Option α
  | [] => Option.none
  | (k', v) :: rest => if k' = k then some v else alookup k rest

/-- Remove every entry with the given key. -/
def akeyErase {α : Type} (k : Nat) : List (Nat × α) → List (Nat × α)
  | [] => []
  | (k', v) :: rest => if k' = k then akeyErase k rest else (k', v) :: akeyErase k rest

/-- HashMap::insert: stores the value under the key, replacing any previous
entry for that key. -/
def hmInsert {α : Type} (k : Nat) (v : α) (l : List (Nat × α)) : List (Nat × α) :=
  (k, v) :: akeyErase k l

/-- Number of entries with the given key. -/
def countKey {α : Type} (k : Nat) : List (Nat × α) → Nat
  | [] => 0
  | (k', _) :: rest => (if k' = k then 1 else 0) + countKey k rest

/-- The keys of the association list are pairwise distinct. -/
def keysNodup {α : Type} (l : List (Nat × α)) : Prop :=
  (l.map Prod.fst).Nodup

theorem alookup_hmInsert_self {α : Type} (k : Nat) (v : α) (l : List (Nat × α)) :
    alookup k (hmInsert k v l) = some v := by
  simp [hmInsert, alookup]

theorem alookup_akeyErase_ne {α : Type} {k k' : Nat} (h : k' ≠ k) (l : List (Nat × α)) :
    alookup k' (akeyErase k l) = alookup k' l := by
  induction l with
  | nil => rfl
  | cons p rest ih =>
    obtain ⟨a, b⟩ := p
    by_cases hak : a = k
    · have hak' : a ≠ k' := fun h2 => h (by rw [← h2, hak])
      simp only [akeyErase, if_pos hak, alookup, if_neg hak']
      exact ih
    · simp only [akeyErase, if_neg hak, alookup]
      by_cases hak' : a = k'
      · rw [if_pos hak', if_pos hak']
      · rw [if_neg hak', if_neg hak', ih]

theorem alookup_hmInsert_ne {α : Type} {k k' : Nat} (h : k' ≠ k) (v : α)
    (l : List (Nat × α)) : alookup k' (hmInsert k v l) = alookup k' l := by
  simp only [hmInsert, alookup, if_neg (fun hh : k = k' => h hh.symm)]
  exact alookup_akeyErase_ne h l

theorem countKey_akeyErase_self {α : Type} (k : Nat) (l : List (Nat × α)) :
    countKey k (akeyErase k l) = 0 := by
  induction l with
  | nil => rfl
  | cons p rest ih =>
    obtain ⟨a, b⟩ := p
    by_cases hak : a = k
    · simp [akeyErase, hak, ih]
    · simp [akeyErase, hak, countKey, ih]

theorem countKey_hmInsert_self {α : Type} (k : Nat) (v : α) (l : List (Nat × α)) :
    countKey k (hmInsert k v l) = 1 := by
  simp [hmInsert, countKey, countKey_akeyErase_self]

theorem countKey_eq_zero_of_not_mem {α : Type} {k : Nat} {l : List (Nat × α)}
    (h : k ∉ l.map Prod.fst) : countKey k l = 0 := by
  induction l with
  | nil => rfl
  | cons p rest ih =>
    simp only [List.map_cons, List.mem_cons] at h
    push_neg at h
    simp only [countKey]
    rw [if_neg (fun he => h.1 he.symm), ih h.2]

theorem countKey_eq_one_of_nodup {α : Type} {k : Nat} {v : α} {l : List (Nat × α)}
    (hnd : keysNodup l) (hl : alookup k l = some v) : countKey k l = 1 := by
  induction l with
  | nil => simp [alookup] at hl
  | cons p rest ih =>
    obtain ⟨a, b⟩ := p
    simp only [keysNodup, List.map_cons, List.nodup_cons] at hnd
    by_cases hak : a = k
    · subst hak
      simp [countKey, countKey_eq_zero_of_not_mem hnd.1]
    · simp only [alookup, if_neg hak] at hl
      simp only [countKey, if_neg hak]
      have := ih hnd.2 hl
      omega

theorem akeyErase_sublist {α : Type} (k : Nat) (l : List (Nat × α)) :
    (akeyErase k l).Sublist l := by
  induction l with
  | nil => simp [akeyErase]
  | cons p rest ih =>
    obtain ⟨a, b⟩ := p
    simp only [akeyErase]
    by_cases hak : a = k
    · rw [if_pos hak]
      exact ih.cons _
    · rw [if_neg hak]
      exact ih.cons₂ _

theorem keysNodup_akeyErase {α : Type} (k : Nat) {l : List (Nat × α)}
    (h : keysNodup l) : keysNodup (akeyErase k l) :=
  ((akeyErase_sublist k l).map Prod.fst).nodup h

theorem mem_akeyErase_ne {α : Type} {k : Nat} {q : Nat × α} {l : List (Nat × α)}
    (h : q ∈ akeyErase k l) : q ∈ l ∧ q.1 ≠ k := by
  induction l with
  | nil => simp [akeyErase] at h
  | cons p rest ih =>
    obtain ⟨a, b⟩ := p
    simp only [akeyErase] at h
    by_cases hpk : a = k
    · rw [if_pos hpk] at h
      obtain ⟨h1, h2⟩ := ih h
      exact ⟨List.mem_cons_of_mem _ h1, h2⟩
    · rw [if_neg hpk] at h
      rcases List.mem_cons.mp h with h1 | h1
      · refine ⟨by rw [h1]; exact List.mem_cons_self _ _, ?_⟩
        rw [h1]
        exact hpk
      · obtain ⟨h2, h3⟩ := ih h1
        exact ⟨List.mem_cons_of_mem _ h2, h3⟩

theorem keysNodup_hmInsert {α : Type} (k : Nat) (v : α) {l : List (Nat × α)}
    (h : keysNodup l) : keysNodup (hmInsert k v l) := by
  simp only [hmInsert, keysNodup, List.map_cons, List.nodup_cons]
  refine ⟨?_, keysNodup_akeyErase k h⟩
  intro hmem
  obtain ⟨q, hq, hq1⟩ := List.mem_map.mp hmem
  exact (mem_akeyErase_ne hq).2 hq1

/-- Fueled computation of the number of trailing zero bits of a positive
number (the 2-adic valuation). -/
def tzAux : Nat → Nat → Nat
  | 0, _ => 0
  | f+1, n => if n % 2 = 1 ∨ n = 0 then 0 else tzAux f (n / 2) + 1

/-- Trailing zero bits of a positive number; fuel n suffices. -/
def tz (n : Nat) : Nat := tzAux n n

/-- u64::trailing_zeros as used by the source: 64 on input 0. -/
def tz64 (n : Nat) : Nat := if n = 0 then 64 else tz n

theorem tzAux_congr : ∀ (m f g : Nat), m ≤ f → m ≤ g → tzAux f m = tzAux g m := by
  intro m
  induction m using Nat.strong_induction_on with
  | _ m ih =>
    intro f g hf hg
    by_cases hm : m % 2 = 1 ∨ m = 0
    · have h1 : ∀ h : Nat, tzAux h m = 0 := by
        intro h
        cases h with
        | zero => rfl
        | succ h => simp [tzAux, hm]
      rw [h1 f, h1 g]
    · push_neg at hm
      have hm2 : 2 ≤ m := by omega
      cases f with
      | zero => omega
      | succ f =>
        cases g with
        | zero => omega
        | succ g =>
          have hrec : m / 2 < m := by omega
          have h1 : m / 2 ≤ f := by omega
          have h2 : m / 2 ≤ g := by omega
          simp only [tzAux, if_neg (by omega : ¬(m % 2 = 1 ∨ m = 0))]
          rw [ih (m / 2) hrec f g h1 h2]

theorem tz_odd {n : Nat} (h : n % 2 = 1) : tz n = 0 := by
  cases n with
  | zero => omega
  | succ k => simp [tz, tzAux, h]

theorem tz_even {n : Nat} (h0 : n ≠ 0) (h : n % 2 = 0) : tz n = tz (n / 2) + 1 := by
  cases n with
  | zero => omega
  | succ k =>
    have h2 : ¬((k + 1) % 2 = 1 ∨ (k + 1) = 0) := by omega
    simp only [tz, tzAux, if_neg h2]
    rw [tzAux_congr ((k + 1) / 2) k ((k + 1) / 2) (by omega) le_rfl]

theorem tz_two_mul {m : Nat} (h : 0 < m) : tz (2 * m) = tz m + 1 := by
  have := tz_even (n := 2 * m) (by omega) (by omega)
  rwa [show 2 * m / 2 = m by omega] at this

theorem two_pow_tz_dvd : ∀ n, 0 < n → 2 ^ tz n ∣ n := by
  intro n
  induction n using Nat.strong_induction_on with
  | _ n ih =>
    intro hn
    by_cases hodd : n % 2 = 1
    · rw [tz_odd hodd]
      simp
    · have he : n % 2 = 0 := by omega
      rw [tz_even (by omega) he]
      have hrec : n / 2 < n := by omega
      have hpos : 0 < n / 2 := by omega
      set t := tz (n / 2) with ht
      obtain ⟨c, hc⟩ := ih (n / 2) hrec hpos
      have h4 : 2 ^ (t + 1) * c = 2 * (2 ^ t * c) := by ring
      refine ⟨c, ?_⟩
      rw [h4, ← hc]
      omega

theorem tz_pow_mul_odd : ∀ (i k : Nat), k % 2 = 1 → tz (2 ^ i * k) = i := by
  intro i
  induction i with
  | zero =>
    intro k hk
    simpa using tz_odd hk
  | succ i ih =>
    intro k hk
    have h1 : 2 ^ (i + 1) * k = 2 * (2 ^ i * k) := by ring
    have hpos : 0 < 2 ^ i * k := Nat.mul_pos (pow_pos (by omega) i) (by omega)
    rw [h1, tz_two_mul hpos, ih k hk]

theorem exists_factor_of_lt_tz {i n : Nat} (hn : 0 < n) (hi : i < tz n) :
    ∃ c, 0 < c ∧ n = 2 ^ (i + 1) * c := by
  have h1 : (2 : Nat) ^ (i + 1) ∣ 2 ^ tz n := pow_dvd_pow 2 (by omega)
  obtain ⟨c, hc⟩ := h1.trans (two_pow_tz_dvd n hn)
  refine ⟨c, ?_, hc⟩
  rcases Nat.eq_zero_or_pos c with h | h
  · rw [h, Nat.mul_zero] at hc
    omega
  · exact h

theorem tz_sub_two_pow {i n : Nat} (hn : 0 < n) (hi : i < tz n) :
    tz (n - 2 ^ i) = i ∧ 2 ^ (i + 1) ≤ n := by
  obtain ⟨c, hc, hn2⟩ := exists_factor_of_lt_tz hn hi
  obtain ⟨c', rfl⟩ : ∃ c', c = c' + 1 := ⟨c - 1, by omega⟩
  have hp : 0 < 2 ^ i := Nat.pos_pow_of_pos i (by omega)
  have hr1 : 2 ^ (i + 1) * (c' + 1) = 2 * (2 ^ i * c') + 2 * 2 ^ i := by ring
  have hr2 : 2 ^ i * (2 * c' + 1) = 2 * (2 ^ i * c') + 2 ^ i := by ring
  constructor
  · have hsub : n - 2 ^ i = 2 ^ i * (2 * c' + 1) := by omega
    rw [hsub, tz_pow_mul_odd i (2 * c' + 1) (by omega)]
  · omega

/-- Fueled floor base-2 logarithm; the source computes it from
next_power_of_two and trailing_zeros, yielding the greatest i with
2 to the i at most x. -/
def log2Aux : Nat → Nat → Nat
  | 0, _ => 0
  | f+1, x => if 2 ≤ x then log2Aux f (x / 2) + 1 else 0

/-- Floor base-2 logarithm of a positive number; fuel x suffices. -/
def log2src (x : Nat) : Nat := log2Aux x x

/-- The source log2 over u64: on input 0 it evaluates to 64 (trailing
zeros of a zero word); all call sites pass positive arguments. -/
def log2rs (x : Nat) : Nat := if x = 0 then 64 else log2src x

theorem log2Aux_congr : ∀ (x f g : Nat), x ≤ f → x ≤ g → log2Aux f x = log2Aux g x := by
  intro x
  induction x using Nat.strong_induction_on with
  | _ x ih =>
    intro f g hf hg
    by_cases hx : 2 ≤ x
    · cases f with
      | zero => omega
      | succ f =>
        cases g with
        | zero => omega
        | succ g =>
          simp only [log2Aux, if_pos hx]
          rw [ih (x / 2) (by omega) f g (by omega) (by omega)]
    · have h1 : ∀ h : Nat, log2Aux h x = 0 := by
        intro h
        cases h with
        | zero => rfl
        | succ h => simp [log2Aux, hx]
      rw [h1 f, h1 g]

theorem log2src_of_ge_two {x : Nat} (h : 2 ≤ x) : log2src x = log2src (x / 2) + 1 := by
  obtain ⟨k, rfl⟩ : ∃ k, x = k + 1 := ⟨x - 1, by omega⟩
  simp only [log2src, log2Aux, if_pos h]
  rw [log2Aux_congr ((k + 1) / 2) k ((k + 1) / 2) (by omega) le_rfl]

theorem pow_log2src_le : ∀ x, 0 < x → 2 ^ log2src x ≤ x := by
  intro x
  induction x using Nat.strong_induction_on with
  | _ x ih =>
    intro hx
    by_cases h2 : 2 ≤ x
    · rw [log2src_of_ge_two h2, pow_succ]
      have := ih (x / 2) (by omega) (by omega)
      omega
    · have hx1 : x = 1 := by omega
      subst hx1
      simp [log2src, log2Aux]

theorem pow_le_of_le_log2rs {i x : Nat} (hx : 0 < x) (hi : i ≤ log2rs x) :
    2 ^ i ≤ x := by
  have h1 : log2rs x = log2src x := by
    simp [log2rs]
    omega
  calc 2 ^ i ≤ 2 ^ log2src x := Nat.pow_le_pow_right (by omega) (h1 ▸ hi)
    _ ≤ x := pow_log2src_le x hx

/-- The observed behavior of a validator: no vote yet, latest vote hash, or
proven faulty. -/
inductive Observation where
  | none
  | correct (hash : Nat)
  | faulty
deriving DecidableEq

/-- Modelled from the spec: vertex.rs is not under src. A WireVote carries
the panorama, sender, optional consensus values and sequence number, as
reconstructed by State::wire_vote in state.rs. -/
structure WireVote where
  panorama : List Observation
  sender : Nat
  values : Option (List Nat)
  seq_number : Nat
deriving DecidableEq

/-- The reason a vote is invalid. -/
inductive VoteError where
  | panorama
  | sequenceNumber
deriving DecidableEq

/-- Modelled from the spec: vertex.rs is not under src. A dependency is
either evidence against a validator index or a vote hash. -/
inductive Dependency where
  | evidence (idx : Nat)
  | vote (hash : Nat)
deriving DecidableEq

/-- Modelled from the spec: evidence.rs is not under src. Evidence has one
variant, Equivocation(v0, v1): two votes by the same sender. -/
inductive Evidence where
  | equivocation (v0 v1 : WireVote)
deriving DecidableEq

/-- Modelled from the spec: the perpetrator of an equivocation is the
common sender of the two equivocating votes. -/
def Evidence.perpetrator : Evidence → Nat
  | .equivocation v0 _ => v0.sender

/-- A stored vote. -/
structure Vote where
  panorama : List Observation
  seq_number : Nat
  sender : Nat
  block : Nat
  skip_idx : List Nat
deriving DecidableEq

/-- Modelled from the spec: block.rs is not under src. A block stores its
optional parent, its height, a height-based skip list and its values. -/
structure Block where
  parent : Option Nat
  height : Nat
  skip_idx : List Nat
  values : List Nat
deriving DecidableEq

/-- The passive protocol state: weights, vote store, block store, evidence
store and the state's own panorama. -/
structure State where
  weights : List Nat
  votes : List (Nat × Vote)
  blocks : List (Nat × Block)
  evidence : List (Nat × Evidence)
  panorama : List Observation
deriving DecidableEq

/-- State::new with all observations set to None. -/
def State.new (weights : List Nat) : State :=
  { weights := weights, votes := [], blocks := [], evidence := [],
    panorama := List.replicate weights.length Observation.none }

def State.optEvidence (s : State) (idx : Nat) : Option Evidence :=
  alookup idx s.evidence

def State.hasEvidence (s : State) (idx : Nat) : Bool :=
  (alookup idx s.evidence).isSome

def State.optVote (s : State) (hash : Nat) : Option Vote :=
  alookup hash s.votes

def State.hasVote (s : State) (hash : Nat) : Bool :=
  (alookup hash s.votes).isSome

def State.optBlock (s : State) (hash : Nat) : Option Block :=
  alookup hash s.blocks

/-- Observation::correct(): the hash if the observation is Correct. -/
def obsCorrect : Observation → Option Nat
  | .correct h => some h
  | _ => Option.none

def obsIsCorrect : Observation → Bool
  | .correct _ => true
  | _ => false

/-- Panorama::is_empty: no correct observation. -/
def panIsEmpty (pan : List Observation) : Bool :=
  !(pan.any obsIsCorrect)

/-- State::add_evidence: insert under the evidence's perpetrator. -/
def State.addEvidence (s : State) (evidence : Evidence) : State :=
  { s with evidence := hmInsert evidence.perpetrator evidence s.evidence }

/-- State::wire_vote: reconstruct the WireVote of a stored vote. -/
def State.wireVote (s : State) (hash : Nat) : Option WireVote :=
  match alookup hash s.votes with
  | Option.none => Option.none
  | some vote =>
    some { panorama := vote.panorama, sender := vote.sender,
           values := (alookup hash s.blocks).map Block.values,
           seq_number := vote.seq_number }

/-- State::missing_obs_dep: the dependency an observation refers to, if it
is not yet satisfied. -/
def State.missingObsDep (s : State) (idx : Nat) (obs : Observation) : Option Dependency :=
  match obs with
  | .faulty => if s.hasEvidence idx then Option.none else some (Dependency.evidence idx)
  | .correct h => if s.hasVote h then Option.none else some (Dependency.vote h)
  | .none => Option.none

def missingDepAux (s : State) (idx : Nat) : List Observation → Option Dependency
  | [] => Option.none
  | obs :: rest =>
    match s.missingObsDep idx obs with
    | some d => some d
    | Option.none => missingDepAux s (idx + 1) rest

/-- State::missing_dependency: the first missing dependency of the
panorama, scanning observations by ascending validator index. -/
def State.missingDependency (s : State) (pan : List Observation) : Option Dependency :=
  missingDepAux s 0 pan

/-- State::find_in_swimlane, with explicit fuel; Option.none models a
panic (missing vote, failed assert, empty skip index) or divergence. -/
def findInSwimlane (votes : List (Nat × Vote)) : Nat → Nat → Nat → Option Nat
  | 0, _, _ => Option.none
  | f+1, hash, seqN =>
    match alookup hash votes with
    | Option.none => Option.none
    | some vote =>
      if vote.seq_number = seqN then some hash
      else if vote.seq_number < seqN then Option.none
      else if vote.skip_idx.length = 0 then Option.none
      else
        match vote.skip_idx[min (log2rs (vote.seq_number - seqN)) (vote.skip_idx.length - 1)]? with
        | Option.none => Option.none
        | some nxt => findInSwimlane votes f nxt seqN

/-- find_in_swimlane entry point: fuel one more than the starting vote's
sequence number always suffices on well-formed states. -/
def State.findInSwimlaneTop (s : State) (hash : Nat) (seqN : Nat) : Option Nat :=
  match alookup hash s.votes with
  | Option.none => Option.none
  | some vote => findInSwimlane s.votes (vote.seq_number + 1) hash seqN

/-- State::sees_correct: pan sees the sender of the hash as correct and
sees that vote through the swimlane. -/
def State.seesCorrect (s : State) (pan : List Observation) (hash : Nat) : Option Bool :=
  match alookup hash s.votes with
  | Option.none => Option.none
  | some vote =>
    match pan[vote.sender]? with
    | Option.none => Option.none
    | some obs =>
      match obsCorrect obs with
      | Option.none => some false
      | some latest =>
        match s.findInSwimlaneTop latest vote.seq_number with
        | Option.none => Option.none
        | some h2 => some (hash == h2)

/-- State::obs_geq. -/
def State.obsGeq (s : State) (l r : Observation) : Option Bool :=
  match l, r with
  | .faulty, _ => some true
  | _, .none => some true
  | .correct h0, .correct h1 =>
    if h0 = h1 then some true
    else
      match alookup h0 s.votes with
      | Option.none => Option.none
      | some v0 => s.seesCorrect v0.panorama h1
  | _, _ => some false

def panoramaGeqAux (s : State) : List (Observation × Observation) → Option Bool
  | [] => some true
  | (l, r) :: rest =>
    match s.obsGeq l r with
    | Option.none => Option.none
    | some false => some false
    | some true => panoramaGeqAux s rest

/-- State::panorama_geq: pointwise obs_geq over the zipped panoramas. -/
def State.panoramaGeq (s : State) (panL panR : List Observation) : Option Bool :=
  panoramaGeqAux s (panL.zip panR)

def obsValidCheck (s : State) (pan : List Observation) (idx : Nat) (obs : Observation) : Option Bool :=
  match obs with
  | .none => some true
  | .faulty => some (s.hasEvidence idx)
  | .correct h =>
    match alookup h s.votes with
    | Option.none => some false
    | some vote =>
      if vote.sender = idx then s.panoramaGeq pan vote.panorama else some false

def isPanoramaValidAux (s : State) (pan : List Observation) (idx : Nat) : List Observation → Option Bool
  | [] => some true
  | obs :: rest =>
    match obsValidCheck s pan idx obs with
    | Option.none => Option.none
    | some false => some false
    | some true => isPanoramaValidAux s pan (idx + 1) rest

/-- State::is_panorama_valid. -/
def State.isPanoramaValid (s : State) (pan : List Observation) : Option Bool :=
  isPanoramaValidAux s pan 0 pan

/-- State::validate_vote: Option.none is a panic; some (some e) is a vote
error; some none means the vote is valid. -/
def State.validateVote (s : State) (wv : WireVote) : Option (Option VoteError) :=
  if wv.values.isNone && panIsEmpty wv.panorama then some (some VoteError.panorama)
  else
    match s.isPanoramaValid wv.panorama with
    | Option.none => Option.none
    | some false => some (some VoteError.panorama)
    | some true =>
      match wv.panorama[wv.sender]? with
      | Option.none => Option.none
      | some Observation.faulty => some (some VoteError.panorama)
      | some Observation.none =>
        if wv.seq_number = 0 then some Option.none
        else some (some VoteError.sequenceNumber)
      | some (Observation.correct h) =>
        match alookup h s.votes with
        | Option.none => Option.none
        | some vote =>
          if wv.seq_number = vote.seq_number + 1 then some Option.none
          else some (some VoteError.sequenceNumber)

/-- The new observation for the sender, together with the state whose
evidence store may have been extended (the equivocation case). -/
def updateObs (hashFn : WireVote → Nat) (s : State) (wv : WireVote)
    (obs0 obs1 : Observation) : Option (State × Observation) :=
  match obs0 with
  | .faulty => some (s, Observation.faulty)
  | _ =>
    if obs0 = obs1 then some (s, Observation.correct (hashFn wv))
    else
      match obs0 with
      | .none => Option.none
      | .faulty => some (s, Observation.faulty)
      | .correct hash0 =>
        if s.hasEvidence wv.sender then some (s, Observation.faulty)
        else
          match s.findInSwimlaneTop hash0 wv.seq_number with
          | Option.none => Option.none
          | some prev0 =>
            match s.wireVote prev0 with
            | Option.none => Option.none
            | some wvote0 =>
              some (s.addEvidence (Evidence.equivocation wvote0 wv), Observation.faulty)

/-- State::update_panorama: record the incoming vote in the state's
panorama, detecting equivocations. -/
def State.updatePanorama (hashFn : WireVote → Nat) (s : State) (wv : WireVote) : Option State :=
  match s.panorama[wv.sender]? with
  | Option.none => Option.none
  | some obs0 =>
    match wv.panorama[wv.sender]? with
    | Option.none => Option.none
    | some obs1 =>
      match updateObs hashFn s wv obs0 obs1 with
      | Option.none => Option.none
      | some (s1, newObs) => some { s1 with panorama := s1.panorama.set wv.sender newObs }

/-- The loop in Vote::new that extends the skip index one level at a
time: entry i+1 is the stored vote at entry i indexed at level i. -/
def skipLoop (votes : List (Nat × Vote)) : List Nat → Nat → Nat → Option (List Nat)
  | acc, _, 0 => some acc
  | acc, i, f+1 =>
    match acc[i]? with
    | Option.none => Option.none
    | some h =>
      match alookup h votes with
      | Option.none => Option.none
      | some oldVote =>
        match oldVote.skip_idx[i]? with
        | Option.none => Option.none
        | some nxt => skipLoop votes (acc ++ [nxt]) (i + 1) f

/-- Vote::new: the stored vote built from a wire vote, together with the
values to be stored as a block. -/
def voteNew (hashFn : WireVote → Nat) (s : State) (wv : WireVote)
    (forkChoiceRes : Option Nat) : Option (Vote × Option (List Nat)) :=
  match (if wv.values.isSome then some (hashFn wv) else forkChoiceRes) with
  | Option.none => Option.none
  | some blockHash =>
    match wv.panorama[wv.sender]? with
    | Option.none => Option.none
    | some obs =>
      match obsCorrect obs with
      | Option.none =>
        some ({ panorama := wv.panorama, seq_number := wv.seq_number,
                sender := wv.sender, block := blockHash, skip_idx := [] }, wv.values)
      | some h =>
        match skipLoop s.votes [h] 0 (tz64 wv.seq_number) with
        | Option.none => Option.none
        | some skips =>
          some ({ panorama := wv.panorama, seq_number := wv.seq_number,
                  sender := wv.sender, block := blockHash, skip_idx := skips }, wv.values)

def blockSkipLoop (blocks : List (Nat × Block)) : List Nat → Nat → Nat → Option (List Nat)
  | acc, _, 0 => some acc
  | acc, i, f+1 =>
    match acc[i]? with
    | Option.none => Option.none
    | some h =>
      match alookup h blocks with
      | Option.none => Option.none
      | some oldBlock =>
        match oldBlock.skip_idx[i]? with
        | Option.none => Option.none
        | some nxt => blockSkipLoop blocks (acc ++ [nxt]) (i + 1) f

/-- Modelled from the spec: block.rs is not under src. Block::new builds a
block with parent equal to the fork choice, height parent.height + 1 (or 0
without a parent), the given values, and a height-based skip list built
like the vote skip list. -/
def blockNew (s : State) (parent : Option Nat) (values : List Nat) : Option Block :=
  match parent with
  | Option.none => some { parent := Option.none, height := 0, skip_idx := [], values := values }
  | some p =>
    match alookup p s.blocks with
    | Option.none => Option.none
    | some pb =>
      match blockSkipLoop s.blocks [p] 0 (tz64 (pb.height + 1)) with
      | Option.none => Option.none
      | some skips =>
        some { parent := some p, height := pb.height + 1, skip_idx := skips, values := values }

/-- State::find_ancestor, with explicit fuel; the outer Option.none models
a panic, the inner one the documented too-low-height result. -/
def findAncestor (blocks : List (Nat × Block)) : Nat → Nat → Nat → Option (Option Nat)
  | 0, _, _ => Option.none
  | f+1, hash, height =>
    match alookup hash blocks with
    | Option.none => Option.none
    | some block =>
      if block.height < height then some Option.none
      else if block.height = height then some (some hash)
      else if block.skip_idx.length = 0 then Option.none
      else
        match block.skip_idx[min (log2rs (block.height - height)) (block.skip_idx.length - 1)]? with
        | Option.none => Option.none
        | some nxt => findAncestor blocks f nxt height

def State.findAncestorTop (s : State) (hash : Nat) (height : Nat) : Option (Option Nat) :=
  match alookup hash s.blocks with
  | Option.none => Option.none
  | some block => findAncestor s.blocks (block.height + 1) hash height

/-- Modelled from the spec: tallies.rs is not under src. Collect each
correct observation's block into a (height, block, weight) tally entry,
zipping the panorama with the weights. -/
def tallyEntries (s : State) : List Observation → List Nat → Option (List (Nat × Nat × Nat))
  | [], _ => some []
  | _, [] => some []
  | obs :: pan, w :: ws =>
    match obsCorrect obs with
    | Option.none => tallyEntries s pan ws
    | some h =>
      match alookup h s.votes with
      | Option.none => Option.none
      | some vote =>
        match alookup vote.block s.blocks with
        | Option.none => Option.none
        | some b =>
          match tallyEntries s pan ws with
          | Option.none => Option.none
          | some rest => some ((b.height, vote.block, w) :: rest)

def weightAt (t : List (Nat × Nat × Nat)) (h b : Nat) : Nat :=
  (t.filter (fun e => e.1 == h && e.2.1 == b)).foldr (fun e acc => e.2.2 + acc) 0

def siblingWeight (t : List (Nat × Nat × Nat)) (h b : Nat) : Nat :=
  (t.filter (fun e => e.1 == h && !(e.2.1 == b))).foldr (fun e acc => e.2.2 + acc) 0

def weightBelow (t : List (Nat × Nat × Nat)) (h : Nat) : Nat :=
  (t.filter (fun e => decide (e.1 < h))).foldr (fun e acc => e.2.2 + acc) 0

def pickMax : List (Nat × Nat) → Option (Nat × Nat)
  | [] => Option.none
  | e :: rest =>
    match pickMax rest with
    | Option.none => some e
    | some m => some (if m.1 < e.1 ∨ (e.1 = m.1 ∧ m.2 < e.2) then e else m)

/-- Modelled from the spec: find the decided block, the tally block whose
weight strictly exceeds the sum of its same-height siblings plus all
lower-height tally weight, taking the maximum height and breaking ties by
the larger hash. -/
def findDecided (t : List (Nat × Nat × Nat)) : Option (Nat × Nat) :=
  pickMax (((t.map (fun e => (e.1, e.2.1))).eraseDups).filter
    (fun c => decide (siblingWeight t c.1 c.2 + weightBelow t c.1 < weightAt t c.1 c.2)))

/-- Modelled from the spec: keep only tally entries strictly above the
decided height whose ancestor at that height is the decided block. -/
def filterDescendants (s : State) (h bhash : Nat) : List (Nat × Nat × Nat) → Option (List (Nat × Nat × Nat))
  | [] => some []
  | e :: rest =>
    if e.1 ≤ h then filterDescendants s h bhash rest
    else
      match s.findAncestorTop e.2.1 h with
      | Option.none => Option.none
      | some Option.none => filterDescendants s h bhash rest
      | some (some a) =>
        match filterDescendants s h bhash rest with
        | Option.none => Option.none
        | some r2 => some (if a = bhash then e :: r2 else r2)

def forkChoiceLoop (s : State) : List (Nat × Nat × Nat) → Nat → Option (Option Nat)
  | _, 0 => Option.none
  | t, f+1 =>
    match findDecided t with
    | Option.none => some Option.none
    | some (h, bhash) =>
      match filterDescendants s h bhash t with
      | Option.none => Option.none
      | some t2 =>
        if t2.isEmpty then some (some bhash)
        else forkChoiceLoop s t2 f

/-- Modelled from the spec: tallies.rs is not under src. State::fork_choice
as described in the specification; the decided height strictly increases
every iteration, so the fuel below always suffices. -/
def State.forkChoice (s : State) (pan : List Observation) : Option (Option Nat) :=
  match tallyEntries s pan s.weights with
  | Option.none => Option.none
  | some t => forkChoiceLoop s t ((t.map (fun e => e.1)).foldr max 0 + 2)

/-- The result of State::add_vote: success, a vote error carrying the
unconsumed wire vote and the untouched state, or a panic. -/
inductive AddVoteRes where
  | ok (s : State)
  | err (cause : VoteError) (wvote : WireVote) (s : State)
  | panic
deriving DecidableEq

/-- State::add_vote: validate, update the panorama, compute the fork
choice, build and insert the vote and (for value-carrying votes) the
block. -/
def addVote (hashFn : WireVote → Nat) (s : State) (wv : WireVote) : AddVoteRes :=
  match s.validateVote wv with
  | Option.none => AddVoteRes.panic
  | some (some cause) => AddVoteRes.err cause wv s
  | some Option.none =>
    match s.updatePanorama hashFn wv with
    | Option.none => AddVoteRes.panic
    | some s1 =>
      match s1.forkChoice wv.panorama with
      | Option.none => AddVoteRes.panic
      | some fc =>
        match voteNew hashFn s1 wv fc with
        | Option.none => AddVoteRes.panic
        | some (vote, optValues) =>
          match optValues with
          | Option.none => AddVoteRes.ok { s1 with votes := hmInsert (hashFn wv) vote s1.votes }
          | some values =>
            match blockNew s1 fc values with
            | Option.none => AddVoteRes.panic
            | some block =>
              AddVoteRes.ok { s1 with
                              blocks := hmInsert (hashFn wv) block s1.blocks
                              votes := hmInsert (hashFn wv) vote s1.votes }

/-- BTreeSet insert on the sorted-list representation. -/
def btreeInsert (x : Nat) : List Nat → List Nat
  | [] => [x]
  | y :: ys => if x < y then x :: y :: ys else if x = y then y :: ys else y :: btreeInsert x ys

/-- PotholeDepSpec: the per-item dependency bookkeeping of pothole.rs,
with BTreeSets represented as strictly sorted lists. -/
structure PotholeDepSpec where
  to_request : List Nat
  requested : List Nat
deriving DecidableEq

/-- PotholeDepSpec::next_dependency: take the to_request set, pop its
first element, put the rest back and record the popped element as
requested. -/
def nextDependency (d : PotholeDepSpec) : Option Nat × PotholeDepSpec :=
  match d.to_request with
  | [] => (Option.none, d)
  | x :: rest => (some x, { to_request := rest, requested := btreeInsert x d.requested })

theorem addVote_err_iff {hashFn : WireVote → Nat} {s : State} {wv : WireVote}
    {c : VoteError} {w : WireVote} {s' : State} :
    addVote hashFn s wv = AddVoteRes.err c w s' ↔
      (s.validateVote wv = some (some c) ∧ w = wv ∧ s' = s) := by
  constructor
  · intro h
    unfold addVote at h
    repeat' split at h
    all_goals simp_all
  · rintro ⟨h1, rfl, rfl⟩
    unfold addVote
    rw [h1]

theorem voteNew_inv {hashFn : WireVote → Nat} {s : State} {wv : WireVote} {fc : Option Nat}
    {vote : Vote} {ov : Option (List Nat)} (h : voteNew hashFn s wv fc = some (vote, ov)) :
    ov = wv.values ∧ vote.panorama = wv.panorama ∧ vote.seq_number = wv.seq_number ∧
      vote.sender = wv.sender := by
  unfold voteNew at h
  repeat' split at h
  all_goals simp_all
  all_goals (obtain ⟨h1, h2⟩ := h; rw [← h1]; simp)

theorem updateObs_fields {hashFn : WireVote → Nat} {s : State} {wv : WireVote}
    {obs0 obs1 : Observation} {sMid : State} {newObs : Observation}
    (h : updateObs hashFn s wv obs0 obs1 = some (sMid, newObs)) :
    sMid.votes = s.votes ∧ sMid.blocks = s.blocks ∧ sMid.weights = s.weights ∧
      sMid.panorama = s.panorama := by
  unfold updateObs at h
  repeat' split at h
  all_goals simp_all
  all_goals (obtain ⟨h1, h2⟩ := h; rw [← h1]; simp [State.addEvidence])

theorem updatePanorama_inv {hashFn : WireVote → Nat} {s : State} {wv : WireVote} {s1 : State}
    (h : s.updatePanorama hashFn wv = some s1) :
    ∃ obs0 obs1 sMid newObs,
      s.panorama[wv.sender]? = some obs0 ∧
      wv.panorama[wv.sender]? = some obs1 ∧
      updateObs hashFn s wv obs0 obs1 = some (sMid, newObs) ∧
      s1 = { sMid with panorama := sMid.panorama.set wv.sender newObs } := by
  unfold State.updatePanorama at h
  repeat' split at h
  all_goals simp_all
  rename_i sMid newObs heqU
  exact ⟨sMid, newObs, ⟨rfl, rfl⟩, h.symm⟩

theorem addVote_ok_inv {hashFn : WireVote → Nat} {s : State} {wv : WireVote} {s' : State}
    (h : addVote hashFn s wv = AddVoteRes.ok s') :
    ∃ s1 fc vote optValues,
      s.validateVote wv = some Option.none ∧
      s.updatePanorama hashFn wv = some s1 ∧
      s1.forkChoice wv.panorama = some fc ∧
      voteNew hashFn s1 wv fc = some (vote, optValues) ∧
      s'.weights = s1.weights ∧ s'.evidence = s1.evidence ∧ s'.panorama = s1.panorama ∧
      s'.votes = hmInsert (hashFn wv) vote s1.votes ∧
      ((optValues = Option.none ∧ s'.blocks = s1.blocks) ∨
       (∃ values block, optValues = some values ∧ blockNew s1 fc values = some block ∧
         s'.blocks = hmInsert (hashFn wv) block s1.blocks)) := by
  unfold addVote at h
  repeat' split at h
  all_goals simp_all
  · rename_i vt dummy heqV
    subst h
    exact ⟨vt, Option.none, ⟨rfl, rfl⟩, rfl, rfl, rfl, rfl, Or.inl ⟨rfl, rfl⟩⟩
  · rename_i vt d1 sk hV d2 blk hB
    subst h
    exact ⟨vt, some sk, ⟨rfl, rfl⟩, rfl, rfl, rfl, rfl, Or.inr ⟨sk, rfl, blk, hB, rfl⟩⟩

theorem updatePanorama_keeps {hashFn : WireVote → Nat} {s : State} {wv : WireVote} {s1 : State}
    (h : s.updatePanorama hashFn wv = some s1) :
    s1.votes = s.votes ∧ s1.blocks = s.blocks ∧ s1.weights = s.weights := by
  obtain ⟨obs0, obs1, sMid, newObs, h0, h1, h2, rfl⟩ := updatePanorama_inv h
  have hf := updateObs_fields h2
  exact ⟨hf.1, hf.2.1, hf.2.2.1⟩

theorem blockNew_values {s : State} {parent : Option Nat} {values : List Nat} {block : Block}
    (h : blockNew s parent values = some block) : block.values = values := by
  unfold blockNew at h
  repeat' split at h
  all_goals simp_all
  all_goals (rw [← h])

theorem akeyErase_idem {α : Type} (k : Nat) (l : List (Nat × α)) :
    akeyErase k (akeyErase k l) = akeyErase k l := by
  induction l with
  | nil => rfl
  | cons p rest ih =>
    obtain ⟨a, b⟩ := p
    by_cases hak : a = k
    · simp [akeyErase, hak, ih]
    · simp [akeyErase, hak, ih]

theorem hmInsert_idem {α : Type} (k : Nat) (v : α) (l : List (Nat × α)) :
    hmInsert k v (hmInsert k v l) = hmInsert k v l := by
  simp [hmInsert, akeyErase, akeyErase_idem]

theorem mem_btreeInsert (x y : Nat) (l : List Nat) :
    y ∈ btreeInsert x l ↔ y = x ∨ y ∈ l := by
  induction l with
  | nil => simp [btreeInsert]
  | cons z zs ih =>
    simp only [btreeInsert]
    by_cases h1 : x < z
    · rw [if_pos h1]
      simp
    · rw [if_neg h1]
      by_cases h2 : x = z
      · rw [if_pos h2]
        subst h2
        simp only [List.mem_cons]
        tauto
      · rw [if_neg h2]
        simp only [List.mem_cons, ih]
        tauto

/-- C9: wire_vote(h) returns Some exactly when a vote with hash h is
stored (has_vote), and, being a total function in this model, it never
panics on an unknown hash. -/
theorem C9_wire_vote_iff_has_vote (s : State) (h : Nat) :
    (s.wireVote h).isSome = s.hasVote h := by
  unfold State.wireVote State.hasVote
  cases alookup h s.votes <;> simp

/-- C3: whenever add_vote returns an error, the error carries the offending
wire vote itself and the returned state is exactly the input state. -/
theorem C3_error_returns_vote_and_state (hashFn : WireVote → Nat) (s : State) (wv : WireVote)
    (c : VoteError) (w : WireVote) (s' : State)
    (h : addVote hashFn s wv = AddVoteRes.err c w s') : w = wv ∧ s' = s := by
  obtain ⟨h1, h2, h3⟩ := addVote_err_iff.mp h
  exact ⟨h2, h3⟩

theorem C3_witness :
    addVote (fun _ => 0) (State.new [1]) ⟨[], 0, Option.none, 0⟩ =
      AddVoteRes.err VoteError.panorama ⟨[], 0, Option.none, 0⟩ (State.new [1]) ∧
    ((⟨[], 0, Option.none, 0⟩ : WireVote) = ⟨[], 0, Option.none, 0⟩ ∧
      State.new [1] = State.new [1]) :=
  ⟨by decide,
   C3_error_returns_vote_and_state (fun _ => 0) (State.new [1]) ⟨[], 0, Option.none, 0⟩
     VoteError.panorama ⟨[], 0, Option.none, 0⟩ (State.new [1]) (by decide)⟩

def cexWvA : WireVote := { panorama := [], sender := 0, values := Option.none, seq_number := 0 }

def cexWvB : WireVote := { panorama := [], sender := 0, values := Option.none, seq_number := 1 }

def cexWvC : WireVote := { panorama := [], sender := 0, values := Option.none, seq_number := 2 }

def cexEv1 : Evidence := Evidence.equivocation cexWvA cexWvB

def cexEv2 : Evidence := Evidence.equivocation cexWvA cexWvC

def cexState : State :=
  { weights := [1], votes := [], blocks := [], evidence := [(0, cexEv1)],
    panorama := [Observation.faulty] }

/-- C2 counterexample: a state already holding evidence cexEv1 for
validator 0; add_evidence with the different evidence cexEv2, whose
perpetrator is also 0, replaces the stored record, so the call is not a
no-op. -/
theorem C2_counterexample :
    cexState.optEvidence 0 = some cexEv1 ∧
    cexEv2.perpetrator = 0 ∧
    cexEv2 ≠ cexEv1 ∧
    (cexState.addEvidence cexEv2).optEvidence 0 ≠ some cexEv1 := by decide

/-- C2 amended: add_evidence stores the evidence under its perpetrator,
replacing any previously stored evidence for that validator; evidence for
all other validators and every other state component are unchanged, and
re-adding the same evidence is a no-op. -/
theorem C2_add_evidence_replaces (s : State) (e : Evidence) :
    (s.addEvidence e).optEvidence e.perpetrator = some e ∧
    (∀ j, j ≠ e.perpetrator → (s.addEvidence e).optEvidence j = s.optEvidence j) ∧
    (s.addEvidence e).votes = s.votes ∧
    (s.addEvidence e).blocks = s.blocks ∧
    (s.addEvidence e).panorama = s.panorama ∧
    (s.addEvidence e).weights = s.weights ∧
    (s.addEvidence e).addEvidence e = s.addEvidence e := by
  refine ⟨?_, ?_, rfl, rfl, rfl, rfl, ?_⟩
  · exact alookup_hmInsert_self e.perpetrator e s.evidence
  · intro j hj
    exact alookup_hmInsert_ne hj e s.evidence
  · simp [State.addEvidence, hmInsert_idem]

theorem C2_witness :
    (cexState.addEvidence cexEv2).optEvidence cexEv2.perpetrator = some cexEv2 ∧
    (cexState.addEvidence cexEv2).optEvidence 7 = cexState.optEvidence 7 ∧
    (cexState.addEvidence cexEv2).votes = cexState.votes :=
  ⟨(C2_add_evidence_replaces cexState cexEv2).1,
   (C2_add_evidence_replaces cexState cexEv2).2.1 7 (by decide),
   (C2_add_evidence_replaces cexState cexEv2).2.2.1⟩

/-- C8: next_dependency pops the minimal pending dependency, moving it
from the to-request set to the requested set and leaving every other
element of both sets unchanged; it returns None exactly when the
to-request set is empty. -/
theorem C8_next_dependency_pops_one (d : PotholeDepSpec)
    (hto : d.to_request.Chain' (· < ·)) :
    ((nextDependency d).1 = Option.none ↔ d.to_request = []) ∧
    (∀ x, (nextDependency d).1 = some x →
      x ∉ (nextDependency d).2.to_request ∧
      x ∈ (nextDependency d).2.requested ∧
      (∀ y, y ∈ (nextDependency d).2.to_request ↔ (y ∈ d.to_request ∧ y ≠ x)) ∧
      (∀ y, y ∈ (nextDependency d).2.requested ↔ (y = x ∨ y ∈ d.requested))) := by
  cases hl : d.to_request with
  | nil =>
    constructor
    · simp [nextDependency, hl]
    · intro x hx
      simp [nextDependency, hl] at hx
  | cons z zs =>
    have hch : (z :: zs).Chain' (· < ·) := hl ▸ hto
    have hpw := List.chain'_iff_pairwise.mp hch
    have hzs : ∀ b ∈ zs, z < b := (List.pairwise_cons.mp hpw).1
    constructor
    · simp [nextDependency, hl]
    · intro x hx
      simp only [nextDependency, hl, Option.some.injEq] at hx
      subst hx
      simp only [nextDependency, hl]
      refine ⟨?_, ?_, ?_, ?_⟩
      · intro hmem
        exact absurd (hzs z hmem) (lt_irrefl z)
      · exact (mem_btreeInsert z z d.requested).mpr (Or.inl rfl)
      · intro y
        constructor
        · intro hy
          refine ⟨List.mem_cons_of_mem _ hy, ?_⟩
          intro hyx
          subst hyx
          exact absurd (hzs y hy) (lt_irrefl y)
        · rintro ⟨hy1, hy2⟩
          rcases List.mem_cons.mp hy1 with h | h
          · exact absurd h hy2
          · exact h
      · intro y
        exact mem_btreeInsert z y d.requested

theorem C8_witness :
    (nextDependency ⟨[1, 2], [5]⟩).1 = some 1 ∧
    1 ∉ (nextDependency ⟨[1, 2], [5]⟩).2.to_request ∧
    1 ∈ (nextDependency ⟨[1, 2], [5]⟩).2.requested ∧
    (2 ∈ (nextDependency ⟨[1, 2], [5]⟩).2.to_request ↔ (2 ∈ [1, 2] ∧ 2 ≠ 1)) :=
  ⟨by decide,
   ((C8_next_dependency_pops_one ⟨[1, 2], [5]⟩ (by simp)).2 1 (by decide)).1,
   ((C8_next_dependency_pops_one ⟨[1, 2], [5]⟩ (by simp)).2 1 (by decide)).2.1,
   ((C8_next_dependency_pops_one ⟨[1, 2], [5]⟩ (by simp)).2 1 (by decide)).2.2.1 2⟩

theorem missingDepAux_none_iff (s : State) :
    ∀ (l : List Observation) (k : Nat),
      (missingDepAux s k l = Option.none ↔
        ∀ j obs, l[j]? = some obs → s.missingObsDep (k + j) obs = Option.none) := by
  intro l
  induction l with
  | nil =>
    intro k
    simp [missingDepAux]
  | cons obs rest ih =>
    intro k
    simp only [missingDepAux]
    cases hm : s.missingObsDep k obs with
    | some d =>
      constructor
      · intro h
        simp at h
      · intro hr
        have := hr 0 obs (by simp)
        rw [Nat.add_zero] at this
        rw [hm] at this
        simp at this
    | none =>
      rw [ih (k + 1)]
      constructor
      · intro hr j obs2 hj
        cases j with
        | zero =>
          simp at hj
          subst hj
          rw [Nat.add_zero]
          exact hm
        | succ j =>
          simp only [List.getElem?_cons_succ] at hj
          have := hr j obs2 hj
          rwa [show k + 1 + j = k + (j + 1) by omega] at this
      · intro hr j obs2 hj
        have := hr (j + 1) obs2 (by simpa using hj)
        rwa [show k + (j + 1) = k + 1 + j by omega] at this

theorem missingDepAux_some (s : State) :
    ∀ (l : List Observation) (k : Nat) (d : Dependency),
      missingDepAux s k l = some d →
      ∃ j obs, l[j]? = some obs ∧ s.missingObsDep (k + j) obs = some d ∧
        ∀ i obs2, i < j → l[i]? = some obs2 → s.missingObsDep (k + i) obs2 = Option.none := by
  intro l
  induction l with
  | nil =>
    intro k d h
    simp [missingDepAux] at h
  | cons obs rest ih =>
    intro k d h
    simp only [missingDepAux] at h
    cases hm : s.missingObsDep k obs with
    | some d2 =>
      rw [hm] at h
      simp only [Option.some.injEq] at h
      subst h
      refine ⟨0, obs, by simp, by rw [Nat.add_zero]; exact hm, ?_⟩
      intro i obs2 hi
      omega
    | none =>
      rw [hm] at h
      obtain ⟨j, obs2, hj, hd, hfirst⟩ := ih (k + 1) d h
      refine ⟨j + 1, obs2, by simpa using hj, ?_, ?_⟩
      · rwa [show k + (j + 1) = k + 1 + j by omega]
      · intro i obs3 hi hio
        cases i with
        | zero =>
          simp at hio
          subst hio
          rw [Nat.add_zero]
          exact hm
        | succ i =>
          simp only [List.getElem?_cons_succ] at hio
          have := hfirst i obs3 (by omega) hio
          rwa [show k + 1 + i = k + (i + 1) by omega] at this

/-- C6: missing_dependency scans observations by ascending validator index
and returns the first unsatisfied reference (Evidence for a Faulty
observation without stored evidence, Vote for a Correct observation whose
vote is unknown, as computed by missing_obs_dep); it returns None exactly
when every observation is satisfied. -/
theorem C6_missing_dependency_first (s : State) (pan : List Observation) :
    (s.missingDependency pan = Option.none ↔
      ∀ i obs, pan[i]? = some obs → s.missingObsDep i obs = Option.none) ∧
    (∀ d, s.missingDependency pan = some d →
      ∃ i obs, pan[i]? = some obs ∧ s.missingObsDep i obs = some d ∧
        ∀ j obs2, j < i → pan[j]? = some obs2 → s.missingObsDep j obs2 = Option.none) := by
  constructor
  · have := missingDepAux_none_iff s pan 0
    simpa [State.missingDependency] using this
  · intro d hd
    have := missingDepAux_some s pan 0 d (by simpa [State.missingDependency] using hd)
    simpa using this

theorem C6_witness :
    (State.new [1, 1]).missingDependency [Observation.none, Observation.faulty] =
      some (Dependency.evidence 1) ∧
    ∃ i obs, ([Observation.none, Observation.faulty])[i]? = some obs ∧
      (State.new [1, 1]).missingObsDep i obs = some (Dependency.evidence 1) ∧
      ∀ j obs2, j < i → ([Observation.none, Observation.faulty])[j]? = some obs2 →
        (State.new [1, 1]).missingObsDep j obs2 = Option.none :=
  ⟨by decide,
   (C6_missing_dependency_first (State.new [1, 1])
     [Observation.none, Observation.faulty]).2 (Dependency.evidence 1) (by decide)⟩

/-- C5: with an otherwise valid panorama, the sequence-number check of
vote admission: a None self-observation requires seq_number 0, a Correct
self-observation requires the successor of the referenced vote's
sequence number (failing with SequenceNumber otherwise), and a Faulty
self-observation is rejected with the Panorama error. -/
theorem C5_sequence_number_check (hashFn : WireVote → Nat) (s : State) (wv : WireVote)
    (hempty : (wv.values.isNone && panIsEmpty wv.panorama) = false)
    (hvalid : s.isPanoramaValid wv.panorama = some true) :
    (wv.panorama[wv.sender]? = some Observation.none →
      ((wv.seq_number ≠ 0 →
          addVote hashFn s wv = AddVoteRes.err VoteError.sequenceNumber wv s) ∧
       (wv.seq_number = 0 → ∀ c w s', addVote hashFn s wv ≠ AddVoteRes.err c w s'))) ∧
    (∀ h v, wv.panorama[wv.sender]? = some (Observation.correct h) →
      alookup h s.votes = some v →
      ((wv.seq_number ≠ v.seq_number + 1 →
          addVote hashFn s wv = AddVoteRes.err VoteError.sequenceNumber wv s) ∧
       (wv.seq_number = v.seq_number + 1 →
          ∀ c w s', addVote hashFn s wv ≠ AddVoteRes.err c w s'))) ∧
    (wv.panorama[wv.sender]? = some Observation.faulty →
      addVote hashFn s wv = AddVoteRes.err VoteError.panorama wv s) := by
  have hv0 : s.validateVote wv =
      (match wv.panorama[wv.sender]? with
       | Option.none => Option.none
       | some Observation.faulty => some (some VoteError.panorama)
       | some Observation.none =>
         if wv.seq_number = 0 then some Option.none
         else some (some VoteError.sequenceNumber)
       | some (Observation.correct h) =>
         match alookup h s.votes with
         | Option.none => Option.none
         | some vote =>
           if wv.seq_number = vote.seq_number + 1 then some Option.none
           else some (some VoteError.sequenceNumber)) := by
    unfold State.validateVote
    rw [if_neg (by simp [hempty]), hvalid]
  refine ⟨?_, ?_, ?_⟩
  · intro hobs
    rw [hobs] at hv0
    have hv1 : s.validateVote wv =
        (if wv.seq_number = 0 then some Option.none
         else some (some VoteError.sequenceNumber)) := hv0
    constructor
    · intro hne
      refine addVote_err_iff.mpr ⟨?_, rfl, rfl⟩
      rw [hv1, if_neg hne]
    · intro h0 c w s' habs
      have hvv := (addVote_err_iff.mp habs).1
      rw [hv1, if_pos h0] at hvv
      simp at hvv
  · intro h v hobs hlk
    rw [hobs] at hv0
    have hv1 : s.validateVote wv =
        (match alookup h s.votes with
         | Option.none => Option.none
         | some vote =>
           if wv.seq_number = vote.seq_number + 1 then some Option.none
           else some (some VoteError.sequenceNumber)) := hv0
    rw [hlk] at hv1
    have hv2 : s.validateVote wv =
        (if wv.seq_number = v.seq_number + 1 then some Option.none
         else some (some VoteError.sequenceNumber)) := hv1
    constructor
    · intro hne
      refine addVote_err_iff.mpr ⟨?_, rfl, rfl⟩
      rw [hv2, if_neg hne]
    · intro h0 c w s' habs
      have hvv := (addVote_err_iff.mp habs).1
      rw [hv2, if_pos h0] at hvv
      simp at hvv
  · intro hobs
    rw [hobs] at hv0
    refine addVote_err_iff.mpr ⟨hv0, rfl, rfl⟩

theorem C5_witness :
    addVote (fun _ => 99) (State.new [1]) ⟨[Observation.none], 0, some [5], 3⟩ =
      AddVoteRes.err VoteError.sequenceNumber ⟨[Observation.none], 0, some [5], 3⟩
        (State.new [1]) :=
  ((C5_sequence_number_check (fun _ => 99) (State.new [1]) ⟨[Observation.none], 0, some [5], 3⟩
      (by decide) (by decide)).1 (by decide)).1 (by decide)

/-- C7: a successfully added wire vote is reconstructed exactly by
wire_vote at its hash, provided the hash is fresh for the block store
when the vote carries no values. -/
theorem C7_wire_vote_roundtrip (hashFn : WireVote → Nat) (s : State) (wv : WireVote) (s' : State)
    (hok : addVote hashFn s wv = AddVoteRes.ok s')
    (hfresh : wv.values = Option.none → alookup (hashFn wv) s.blocks = Option.none) :
    s'.wireVote (hashFn wv) = some wv := by
  obtain ⟨s1, fc, vote, optValues, hval, hup, hfc, hvn, hw, he, hp, hv, hb⟩ := addVote_ok_inv hok
  obtain ⟨hov, hvp, hvs, hvsnd⟩ := voteNew_inv hvn
  have hkeep := updatePanorama_keeps hup
  have h1 : alookup (hashFn wv) s'.votes = some vote := by
    rw [hv]
    exact alookup_hmInsert_self _ _ _
  unfold State.wireVote
  rw [h1]
  rcases hb with ⟨hovn, hbeq⟩ | ⟨values, block, hovs, hbn, hbeq⟩
  · have hwvn : wv.values = Option.none := by rw [← hov, hovn]
    have h2 : alookup (hashFn wv) s'.blocks = Option.none := by
      rw [hbeq, hkeep.2.1]
      exact hfresh hwvn
    rw [h2]
    simp only [Option.map_none, Option.some.injEq]
    cases wv
    simp_all
  · have hwvs : wv.values = some values := by rw [← hov, hovs]
    have h2 : alookup (hashFn wv) s'.blocks = some block := by
      rw [hbeq]
      exact alookup_hmInsert_self _ _ _
    rw [h2]
    have hbv := blockNew_values hbn
    simp only [Option.map_some, Option.some.injEq]
    cases wv
    simp_all

def c7hf : WireVote → Nat := fun _ => 42

def c7wv : WireVote := ⟨[Observation.none], 0, some [7], 0⟩

def c7S : State :=
  { weights := [1],
    votes := [(42, { panorama := [Observation.none], seq_number := 0, sender := 0,
                     block := 42, skip_idx := [] })],
    blocks := [(42, { parent := Option.none, height := 0, skip_idx := [], values := [7] })],
    evidence := [],
    panorama := [Observation.correct 42] }

theorem C7_witness :
    addVote c7hf (State.new [1]) c7wv = AddVoteRes.ok c7S ∧
    c7S.wireVote (c7hf c7wv) = some c7wv :=
  ⟨by decide,
   C7_wire_vote_roundtrip c7hf (State.new [1]) c7wv c7S (by decide) (by decide)⟩

/-- The skip-list invariant on the vote store: every present skip entry i
of a stored vote points to a stored vote by the same sender whose
sequence number is smaller by exactly 2 to the i. -/
def skipListInv (votes : List (Nat × Vote)) : Prop :=
  ∀ h v, alookup h votes = some v →
    ∀ i hi, v.skip_idx[i]? = some hi →
      ∃ v2, alookup hi votes = some v2 ∧ v2.sender = v.sender ∧
        v2.seq_number + 2 ^ i = v.seq_number

/-- The companion length invariant: a stored vote with sequence number n
has no skip entries when n = 0 and exactly trailing_zeros(n) + 1 of them
otherwise. -/
def skipLenInv (votes : List (Nat × Vote)) : Prop :=
  ∀ h v, alookup h votes = some v →
    v.skip_idx.length = (if v.seq_number = 0 then 0 else tz v.seq_number + 1)

theorem findInSwimlane_ok (votes : List (Nat × Vote)) (hinv1 : skipListInv votes)
    (hinv2 : skipLenInv votes) :
    ∀ (n h : Nat) (v : Vote) (target fuel : Nat),
      alookup h votes = some v → v.seq_number - target ≤ n → target ≤ v.seq_number →
      v.seq_number - target < fuel →
      ∃ h2 v2, findInSwimlane votes fuel h target = some h2 ∧
        alookup h2 votes = some v2 ∧ v2.sender = v.sender ∧ v2.seq_number = target := by
  intro n
  induction n using Nat.strong_induction_on with
  | _ n ih =>
    intro h v target fuel hlk hmeas htar hfuel
    obtain ⟨f, rfl⟩ : ∃ f, fuel = f + 1 := ⟨fuel - 1, by omega⟩
    have hbody : findInSwimlane votes (f + 1) h target =
        (if v.seq_number = target then some h
         else if v.seq_number < target then Option.none
         else if v.skip_idx.length = 0 then Option.none
         else
           match v.skip_idx[min (log2rs (v.seq_number - target)) (v.skip_idx.length - 1)]? with
           | Option.none => Option.none
           | some nxt => findInSwimlane votes f nxt target) := by
      conv_lhs => rw [findInSwimlane]
      rw [hlk]
    by_cases heq : v.seq_number = target
    · refine ⟨h, v, ?_, hlk, rfl, heq⟩
      rw [hbody, if_pos heq]
    · have hnlt : ¬ v.seq_number < target := by omega
      have hlen := hinv2 h v hlk
      have hne0 : v.seq_number ≠ 0 := by omega
      rw [if_neg hne0] at hlen
      have hlen0 : ¬ v.skip_idx.length = 0 := by omega
      have hilt : min (log2rs (v.seq_number - target)) (v.skip_idx.length - 1) <
          v.skip_idx.length := by omega
      obtain ⟨hi, hget⟩ :
          ∃ hi, v.skip_idx[min (log2rs (v.seq_number - target)) (v.skip_idx.length - 1)]? =
            some hi :=
        ⟨_, List.getElem?_eq_getElem hilt⟩
      obtain ⟨v2, hlk2, hsnd2, hseq2⟩ := hinv1 h v hlk _ hi hget
      have hdiffpos : 0 < v.seq_number - target := by omega
      have hpow : 2 ^ min (log2rs (v.seq_number - target)) (v.skip_idx.length - 1) ≤
          v.seq_number - target :=
        pow_le_of_le_log2rs hdiffpos (min_le_left _ _)
      have hp1 : 0 < 2 ^ min (log2rs (v.seq_number - target)) (v.skip_idx.length - 1) :=
        pow_pos (by omega) _
      have htar2 : target ≤ v2.seq_number := by omega
      obtain ⟨h2, v3, hfind, hlk3, hsnd3, hseq3⟩ :=
        ih (v2.seq_number - target) (by omega) hi v2 target f hlk2 le_rfl htar2 (by omega)
      refine ⟨h2, v3, ?_, hlk3, by rw [hsnd3, hsnd2], hseq3⟩
      rw [hbody, if_neg heq, if_neg hnlt, if_neg hlen0, hget]
      exact hfind

/-- C10: on a state satisfying the skip-list invariants, find_in_swimlane
started at a stored vote with a target sequence number at most that
vote's own terminates within seq_number + 1 steps (every recursive step
strictly decreases the current sequence number) and returns the hash of a
stored vote by the same sender with exactly the target sequence number. -/
theorem C10_find_in_swimlane_terminates (s : State) (h : Nat) (v : Vote) (target : Nat)
    (hinv1 : skipListInv s.votes) (hinv2 : skipLenInv s.votes)
    (hlk : alookup h s.votes = some v) (htar : target ≤ v.seq_number) :
    ∃ h2 v2, s.findInSwimlaneTop h target = some h2 ∧
      alookup h2 s.votes = some v2 ∧ v2.sender = v.sender ∧ v2.seq_number = target := by
  obtain ⟨h2, v2, hfind, hrest⟩ :=
    findInSwimlane_ok s.votes hinv1 hinv2 (v.seq_number - target) h v target
      (v.seq_number + 1) hlk le_rfl htar (by omega)
  refine ⟨h2, v2, ?_, hrest⟩
  unfold State.findInSwimlaneTop
  rw [hlk]
  exact hfind

theorem skipLoop_ok (votes : List (Nat × Vote)) (hinv1 : skipListInv votes)
    (hinv2 : skipLenInv votes) (sd n : Nat) (hn : 0 < n) :
    ∀ (f i : Nat) (acc : List Nat),
      i + f = tz n →
      acc.length = i + 1 →
      (∀ j hj, acc[j]? = some hj →
        ∃ vj, alookup hj votes = some vj ∧ vj.sender = sd ∧ vj.seq_number + 2 ^ j = n) →
      ∃ res, skipLoop votes acc i f = some res ∧ res.length = tz n + 1 ∧
        (∀ j hj, res[j]? = some hj →
          ∃ vj, alookup hj votes = some vj ∧ vj.sender = sd ∧ vj.seq_number + 2 ^ j = n) := by
  intro f
  induction f with
  | zero =>
    intro i acc hif hlen hprop
    exact ⟨acc, rfl, by omega, hprop⟩
  | succ f ihf =>
    intro i acc hif hlen hprop
    obtain ⟨hI, hgetI⟩ : ∃ hI, acc[i]? = some hI :=
      ⟨_, List.getElem?_eq_getElem (by omega)⟩
    obtain ⟨vi, hlkI, hsndI, hseqI⟩ := hprop i hI hgetI
    have hilt : i < tz n := by omega
    obtain ⟨hsub, hle⟩ := tz_sub_two_pow hn hilt
    have h2i : 0 < 2 ^ i := pow_pos (by omega) i
    have h2i1 : (2 : Nat) ^ (i + 1) = 2 ^ i + 2 ^ i := by
      rw [pow_succ]
      omega
    have hviseq : vi.seq_number = n - 2 ^ i := by omega
    have hvipos : 0 < vi.seq_number := by omega
    have hlenvi := hinv2 hI vi hlkI
    rw [if_neg (by omega)] at hlenvi
    have htzvi : tz vi.seq_number = i := by
      rw [hviseq]
      exact hsub
    rw [htzvi] at hlenvi
    have higet : i < vi.skip_idx.length := by omega
    obtain ⟨nxt, hnxt⟩ : ∃ nxt, vi.skip_idx[i]? = some nxt :=
      ⟨_, List.getElem?_eq_getElem higet⟩
    obtain ⟨v2, hlk2, hsnd2, hseq2⟩ := hinv1 hI vi hlkI i nxt hnxt
    have hstep1 : skipLoop votes acc i (f + 1) =
        (match acc[i]? with
         | Option.none => Option.none
         | some h =>
           match alookup h votes with
           | Option.none => Option.none
           | some oldVote =>
             match oldVote.skip_idx[i]? with
             | Option.none => Option.none
             | some nxt => skipLoop votes (acc ++ [nxt]) (i + 1) f) := by
      conv_lhs => rw [skipLoop]
    rw [hgetI] at hstep1
    have hstep2 : skipLoop votes acc i (f + 1) =
        (match alookup hI votes with
         | Option.none => Option.none
         | some oldVote =>
           match oldVote.skip_idx[i]? with
           | Option.none => Option.none
           | some nxt => skipLoop votes (acc ++ [nxt]) (i + 1) f) := hstep1
    rw [hlkI] at hstep2
    have hstep3 : skipLoop votes acc i (f + 1) =
        (match vi.skip_idx[i]? with
         | Option.none => Option.none
         | some nxt => skipLoop votes (acc ++ [nxt]) (i + 1) f) := hstep2
    rw [hnxt] at hstep3
    have hstep : skipLoop votes acc i (f + 1) = skipLoop votes (acc ++ [nxt]) (i + 1) f :=
      hstep3
    have hlen2 : (acc ++ [nxt]).length = (i + 1) + 1 := by
      simp [hlen]
    have hprop2 : ∀ j hj, (acc ++ [nxt])[j]? = some hj →
        ∃ vj, alookup hj votes = some vj ∧ vj.sender = sd ∧ vj.seq_number + 2 ^ j = n := by
      intro j hj hgetj
      rw [List.getElem?_append] at hgetj
      by_cases hji : j < acc.length
      · rw [if_pos hji] at hgetj
        exact hprop j hj hgetj
      · rw [if_neg hji] at hgetj
        by_cases hje : j = i + 1
        · subst hje
          have hz : i + 1 - acc.length = 0 := by omega
          rw [hz] at hgetj
          simp only [List.getElem?_cons_zero, Option.some.injEq] at hgetj
          subst hgetj
          refine ⟨v2, hlk2, by rw [hsnd2, hsndI], by omega⟩
        · obtain ⟨m, hm⟩ : ∃ m, j - acc.length = m + 1 := ⟨j - acc.length - 1, by omega⟩
          rw [hm] at hgetj
          simp at hgetj
    obtain ⟨res, hres, hreslen, hresprop⟩ := ihf (i + 1) (acc ++ [nxt]) (by omega) hlen2 hprop2
    exact ⟨res, by rw [hstep]; exact hres, hreslen, hresprop⟩

theorem voteNew_skip {hashFn : WireVote → Nat} {s : State} {wv : WireVote} {fc : Option Nat}
    {vote : Vote} {ov : Option (List Nat)} (h : voteNew hashFn s wv fc = some (vote, ov)) :
    ∃ obs, wv.panorama[wv.sender]? = some obs ∧
      ((obsCorrect obs = Option.none ∧ vote.skip_idx = []) ∨
       (∃ h0, obsCorrect obs = some h0 ∧
         skipLoop s.votes [h0] 0 (tz64 wv.seq_number) = some vote.skip_idx)) := by
  unfold voteNew at h
  repeat' split at h
  all_goals simp_all
  · rw [← h.1]
  · rw [← h.1]

theorem isPanoramaValidAux_correct (s : State) (pan : List Observation) :
    ∀ (l : List Observation) (k : Nat), isPanoramaValidAux s pan k l = some true →
      ∀ j h0, l[j]? = some (Observation.correct h0) →
        ∃ v, alookup h0 s.votes = some v ∧ v.sender = k + j := by
  intro l
  induction l with
  | nil =>
    intro k hval j h0 hj
    simp at hj
  | cons obs rest ih =>
    intro k hval j h0 hj
    unfold isPanoramaValidAux at hval
    split at hval
    · simp at hval
    · simp at hval
    · rename_i hb
      cases j with
      | zero =>
        simp only [List.getElem?_cons_zero, Option.some.injEq] at hj
        subst hj
        unfold obsValidCheck at hb
        split at hb
        · rename_i heqo
          simp at heqo
        · rename_i heqo
          simp at heqo
        · rename_i h2 heqo
          injection heqo with hh02
          subst hh02
          split at hb
          · simp at hb
          · rename_i v hlk
            split at hb
            · rename_i hsnd
              exact ⟨v, hlk, by rw [hsnd]; omega⟩
            · simp at hb
      | succ j =>
        simp only [List.getElem?_cons_succ] at hj
        obtain ⟨v, hv1, hv2⟩ := ih (k + 1) hval j h0 hj
        exact ⟨v, hv1, by omega⟩

theorem isPanoramaValid_correct {s : State} {pan : List Observation}
    (h : s.isPanoramaValid pan = some true) :
    ∀ i h0, pan[i]? = some (Observation.correct h0) →
      ∃ v, alookup h0 s.votes = some v ∧ v.sender = i := by
  intro i h0 hi
  have := isPanoramaValidAux_correct s pan pan 0 h i h0 hi
  simpa using this

theorem validateVote_ok_inv {s : State} {wv : WireVote}
    (h : s.validateVote wv = some Option.none) :
    s.isPanoramaValid wv.panorama = some true ∧
    ∃ obs, wv.panorama[wv.sender]? = some obs ∧
      ((obs = Observation.none ∧ wv.seq_number = 0) ∨
       (∃ h0 v0, obs = Observation.correct h0 ∧ alookup h0 s.votes = some v0 ∧
         wv.seq_number = v0.seq_number + 1)) := by
  unfold State.validateVote at h
  repeat' split at h
  all_goals simp_all

theorem inv_insert (votes : List (Nat × Vote)) (newHash : Nat) (vote : Vote)
    (hinv1 : skipListInv votes) (hinv2 : skipLenInv votes)
    (hfresh : alookup newHash votes = Option.none)
    (hlen : vote.skip_idx.length = if vote.seq_number = 0 then 0 else tz vote.seq_number + 1)
    (hlinks : ∀ j hj, vote.skip_idx[j]? = some hj →
      ∃ vj, alookup hj votes = some vj ∧ vj.sender = vote.sender ∧
        vj.seq_number + 2 ^ j = vote.seq_number) :
    skipListInv (hmInsert newHash vote votes) ∧ skipLenInv (hmInsert newHash vote votes) := by
  constructor
  · intro h v hlk i hi hget
    by_cases hh : h = newHash
    · rw [hh, alookup_hmInsert_self] at hlk
      obtain rfl := Option.some.inj hlk
      obtain ⟨vj, hvj, hsnd, hseq⟩ := hlinks i hi hget
      have hne : hi ≠ newHash := by
        intro hcon
        rw [hcon, hfresh] at hvj
        exact Option.noConfusion hvj
      exact ⟨vj, by rw [alookup_hmInsert_ne hne]; exact hvj, hsnd, hseq⟩
    · rw [alookup_hmInsert_ne hh] at hlk
      obtain ⟨vj, hvj, hsnd, hseq⟩ := hinv1 h v hlk i hi hget
      have hne : hi ≠ newHash := by
        intro hcon
        rw [hcon, hfresh] at hvj
        exact Option.noConfusion hvj
      exact ⟨vj, by rw [alookup_hmInsert_ne hne]; exact hvj, hsnd, hseq⟩
  · intro h v hlk
    by_cases hh : h = newHash
    · rw [hh, alookup_hmInsert_self] at hlk
      obtain rfl := Option.some.inj hlk
      exact hlen
    · rw [alookup_hmInsert_ne hh] at hlk
      exact hinv2 h v hlk

/-- C4: the skip-list invariant of the vote store (every present skip
entry i points to a same-sender vote exactly 2 to the i sequence numbers
back, with the length law of Vote::new) is preserved by every successful
add_vote with a fresh hash. -/
theorem C4_skiplist_preserved (hashFn : WireVote → Nat) (s : State) (wv : WireVote) (s' : State)
    (hinv1 : skipListInv s.votes) (hinv2 : skipLenInv s.votes)
    (hfresh : alookup (hashFn wv) s.votes = Option.none)
    (hok : addVote hashFn s wv = AddVoteRes.ok s') :
    skipListInv s'.votes ∧ skipLenInv s'.votes := by
  obtain ⟨s1, fc, vote, optValues, hval, hup, hfc, hvn, hw, he, hp, hv, hb⟩ := addVote_ok_inv hok
  have hkeep := updatePanorama_keeps hup
  obtain ⟨hov, hvp, hvs, hvsnd⟩ := voteNew_inv hvn
  obtain ⟨obs, hobs, hskipcase⟩ := voteNew_skip hvn
  obtain ⟨hpanvalid, obs2, hobs2, hseqcase⟩ := validateVote_ok_inv hval
  have hobseq : obs2 = obs := by
    rw [hobs] at hobs2
    exact (Option.some.inj hobs2).symm
  rw [hobseq] at hseqcase
  rw [hv, hkeep.1]
  rcases hskipcase with ⟨hobsn, hskipnil⟩ | ⟨h0, hobsc, hloop⟩
  · have hseq0 : wv.seq_number = 0 := by
      rcases hseqcase with ⟨_, hz⟩ | ⟨h0, v0, hobsC, _, _⟩
      · exact hz
      · rw [hobsC] at hobsn
        simp [obsCorrect] at hobsn
    refine inv_insert s.votes (hashFn wv) vote hinv1 hinv2 hfresh ?_ ?_
    · rw [hskipnil, hvs, hseq0]
      simp
    · intro j hj hgetj
      rw [hskipnil] at hgetj
      simp at hgetj
  · have hobsC : obs = Observation.correct h0 := by
      cases obs with
      | none => simp [obsCorrect] at hobsc
      | faulty => simp [obsCorrect] at hobsc
      | correct h2 =>
        simp only [obsCorrect, Option.some.injEq] at hobsc
        rw [hobsc]
    obtain ⟨h0', v0, hobsC', hlk0, hseq'⟩ :
        ∃ h0' v0, obs = Observation.correct h0' ∧ alookup h0' s.votes = some v0 ∧
          wv.seq_number = v0.seq_number + 1 := by
      rcases hseqcase with ⟨hobsN, _⟩ | hC
      · rw [hobsN] at hobsC
        exact absurd hobsC (by simp)
      · exact hC
    have hh0 : h0' = h0 := by
      rw [hobsC] at hobsC'
      exact (Observation.correct.inj hobsC').symm
    rw [hh0] at hlk0
    have hn : 0 < wv.seq_number := by omega
    have htz64 : tz64 wv.seq_number = tz wv.seq_number := by
      rw [tz64, if_neg (by omega)]
    rw [htz64, hkeep.1] at hloop
    obtain ⟨vS, hlkS, hsndS⟩ :=
      isPanoramaValid_correct hpanvalid wv.sender h0 (by rw [hobs, hobsC])
    have hvS : vS = v0 := by
      rw [hlkS] at hlk0
      exact Option.some.inj hlk0
    rw [hvS] at hlkS hsndS
    obtain ⟨res, hres, hreslen, hresprop⟩ :=
      skipLoop_ok s.votes hinv1 hinv2 wv.sender wv.seq_number hn (tz wv.seq_number) 0 [h0]
        (by omega) (by simp)
        (by
          intro j hj hgetj
          cases j with
          | zero =>
            simp only [List.getElem?_cons_zero, Option.some.injEq] at hgetj
            subst hgetj
            exact ⟨v0, hlkS, hsndS, by rw [pow_zero]; omega⟩
          | succ j =>
            simp at hgetj)
    have hreseq : res = vote.skip_idx := Option.some.inj (hres.symm.trans hloop)
    refine inv_insert s.votes (hashFn wv) vote hinv1 hinv2 hfresh ?_ ?_
    · rw [hvs, if_neg (by omega), ← hreseq, hreslen]
    · intro j hj hgetj
      rw [← hreseq] at hgetj
      obtain ⟨vj, h1, h2, h3⟩ := hresprop j hj hgetj
      exact ⟨vj, h1, by rw [h2, hvsnd], by rw [hvs]; exact h3⟩

def whf : WireVote → Nat := fun wv => 41 + 2 * wv.seq_number

def wVote0 : Vote :=
  { panorama := [Observation.none], seq_number := 0, sender := 0, block := 41, skip_idx := [] }

def wVote1 : Vote :=
  { panorama := [Observation.correct 41], seq_number := 1, sender := 0, block := 41,
    skip_idx := [41] }

def wBlock0 : Block := { parent := Option.none, height := 0, skip_idx := [], values := [7] }

def wState1 : State :=
  { weights := [1], votes := [(41, wVote0)], blocks := [(41, wBlock0)], evidence := [],
    panorama := [Observation.correct 41] }

def wState2 : State :=
  { weights := [1], votes := [(43, wVote1), (41, wVote0)], blocks := [(41, wBlock0)],
    evidence := [], panorama := [Observation.correct 43] }

theorem skipListInv_w1 : skipListInv wState1.votes := by
  intro h v hlk i hi hget
  simp only [wState1] at hlk
  simp only [alookup] at hlk
  by_cases h1 : (41 : Nat) = h
  · rw [if_pos h1] at hlk
    obtain rfl := Option.some.inj hlk
    simp [wVote0] at hget
  · rw [if_neg h1] at hlk
    exact absurd hlk (by simp)

theorem skipLenInv_w1 : skipLenInv wState1.votes := by
  intro h v hlk
  simp only [wState1] at hlk
  simp only [alookup] at hlk
  by_cases h1 : (41 : Nat) = h
  · rw [if_pos h1] at hlk
    obtain rfl := Option.some.inj hlk
    decide
  · rw [if_neg h1] at hlk
    exact absurd hlk (by simp)

theorem skipListInv_w2 : skipListInv wState2.votes := by
  intro h v hlk i hi hget
  simp only [wState2] at hlk
  simp only [alookup] at hlk
  by_cases h1 : (43 : Nat) = h
  · rw [if_pos h1] at hlk
    obtain rfl := Option.some.inj hlk
    cases i with
    | zero =>
      simp only [wVote1, List.getElem?_cons_zero, Option.some.injEq] at hget
      subst hget
      exact ⟨wVote0, by decide, by decide, by decide⟩
    | succ i => simp [wVote1] at hget
  · rw [if_neg h1] at hlk
    by_cases h2 : (41 : Nat) = h
    · rw [if_pos h2] at hlk
      obtain rfl := Option.some.inj hlk
      simp [wVote0] at hget
    · rw [if_neg h2] at hlk
      exact absurd hlk (by simp)

theorem skipLenInv_w2 : skipLenInv wState2.votes := by
  intro h v hlk
  simp only [wState2] at hlk
  simp only [alookup] at hlk
  by_cases h1 : (43 : Nat) = h
  · rw [if_pos h1] at hlk
    obtain rfl := Option.some.inj hlk
    decide
  · rw [if_neg h1] at hlk
    by_cases h2 : (41 : Nat) = h
    · rw [if_pos h2] at hlk
      obtain rfl := Option.some.inj hlk
      decide
    · rw [if_neg h2] at hlk
      exact absurd hlk (by simp)

theorem C4_witness :
    alookup 43 wState1.votes = Option.none ∧
    addVote whf wState1 ⟨[Observation.correct 41], 0, Option.none, 1⟩ = AddVoteRes.ok wState2 ∧
    skipListInv wState2.votes ∧ skipLenInv wState2.votes :=
  ⟨by decide, by decide,
   C4_skiplist_preserved whf wState1 ⟨[Observation.correct 41], 0, Option.none, 1⟩ wState2
     skipListInv_w1 skipLenInv_w1 (by decide) (by decide)⟩

theorem C10_witness :
    (wState2.findInSwimlaneTop 43 0).isSome = true := by
  obtain ⟨h2, v2, hf, _⟩ :=
    C10_find_in_swimlane_terminates wState2 43 wVote1 0 skipListInv_w2 skipLenInv_w2
      (by decide) (by decide)
  rw [hf]
  rfl

theorem updateObs_cases {hashFn : WireVote → Nat} {s : State} {wv : WireVote}
    {obs0 obs1 : Observation} {sMid : State} {newObs : Observation}
    (h : updateObs hashFn s wv obs0 obs1 = some (sMid, newObs)) :
    (obs0 = Observation.faulty ∧ sMid = s ∧ newObs = Observation.faulty) ∨
    (obs0 ≠ Observation.faulty ∧ obs0 = obs1 ∧ sMid = s ∧
      newObs = Observation.correct (hashFn wv)) ∨
    (∃ hash0, obs0 = Observation.correct hash0 ∧ obs0 ≠ obs1 ∧
      newObs = Observation.faulty ∧
      ((s.hasEvidence wv.sender = true ∧ sMid = s) ∨
       (s.hasEvidence wv.sender = false ∧
        ∃ prev0 wvote0, s.findInSwimlaneTop hash0 wv.seq_number = some prev0 ∧
          s.wireVote prev0 = some wvote0 ∧
          sMid = s.addEvidence (Evidence.equivocation wvote0 wv)))) := by
  unfold updateObs at h
  repeat' split at h
  all_goals simp_all

theorem findInSwimlane_sender (votes : List (Nat × Vote)) (hinv1 : skipListInv votes) :
    ∀ (fuel h target h2 : Nat) (v : Vote), findInSwimlane votes fuel h target = some h2 →
      alookup h votes = some v →
      ∃ v2, alookup h2 votes = some v2 ∧ v2.sender = v.sender := by
  intro fuel
  induction fuel with
  | zero =>
    intro h target h2 v hfind hlk
    simp [findInSwimlane] at hfind
  | succ f ih =>
    intro h target h2 v hfind hlk
    have hbody : findInSwimlane votes (f + 1) h target =
        (if v.seq_number = target then some h
         else if v.seq_number < target then Option.none
         else if v.skip_idx.length = 0 then Option.none
         else
           match v.skip_idx[min (log2rs (v.seq_number - target)) (v.skip_idx.length - 1)]? with
           | Option.none => Option.none
           | some nxt => findInSwimlane votes f nxt target) := by
      conv_lhs => rw [findInSwimlane]
      rw [hlk]
    rw [hbody] at hfind
    by_cases heq : v.seq_number = target
    · rw [if_pos heq] at hfind
      obtain rfl := Option.some.inj hfind
      exact ⟨v, hlk, rfl⟩
    · rw [if_neg heq] at hfind
      by_cases hlt : v.seq_number < target
      · rw [if_pos hlt] at hfind
        exact absurd hfind (by simp)
      · rw [if_neg hlt] at hfind
        by_cases hlen : v.skip_idx.length = 0
        · rw [if_pos hlen] at hfind
          exact absurd hfind (by simp)
        · rw [if_neg hlen] at hfind
          cases hget : v.skip_idx[min (log2rs (v.seq_number - target)) (v.skip_idx.length - 1)]? with
          | none =>
            rw [hget] at hfind
            have hcon : (Option.none : Option Nat) = some h2 := hfind
            exact absurd hcon (by simp)
          | some nxt =>
            rw [hget] at hfind
            have hrec : findInSwimlane votes f nxt target = some h2 := hfind
            obtain ⟨vn, hlkn, hsndn, _⟩ := hinv1 h v hlk _ nxt hget
            obtain ⟨v2, hlk2, hsnd2⟩ := ih nxt target h2 vn hrec hlkn
            exact ⟨v2, hlk2, by rw [hsnd2, hsndn]⟩

theorem wireVote_sender {s : State} {h : Nat} {w : WireVote}
    (hw : s.wireVote h = some w) :
    ∃ v, alookup h s.votes = some v ∧ w.sender = v.sender := by
  unfold State.wireVote at hw
  cases hlk : alookup h s.votes with
  | none =>
    rw [hlk] at hw
    exact absurd hw (by simp)
  | some v =>
    rw [hlk] at hw
    obtain rfl := Option.some.inj hw
    exact ⟨v, rfl, rfl⟩

/-- Every Faulty entry of the state's own panorama is backed by stored
evidence for that validator. -/
def faultyInv (s : State) : Prop :=
  ∀ i, s.panorama[i]? = some Observation.faulty → s.hasEvidence i = true

/-- Every Correct entry of the state's own panorama points to a stored
vote by that validator. -/
def panSenderInv (s : State) : Prop :=
  ∀ i h, s.panorama[i]? = some (Observation.correct h) →
    ∃ v, alookup h s.votes = some v ∧ v.sender = i

theorem getElem?_some_lt {α : Type} {l : List α} {i : Nat} {a : α}
    (h : l[i]? = some a) : i < l.length := by
  by_contra hc
  rw [List.getElem?_eq_none (by omega)] at h
  exact Option.noConfusion h

theorem hasEvidence_congr {s t : State} (h : s.evidence = t.evidence) (i : Nat) :
    s.hasEvidence i = t.hasEvidence i := by
  unfold State.hasEvidence
  rw [h]

theorem findInSwimlaneTop_sender {s : State} (hinv : skipListInv s.votes)
    {h0 target prev0 : Nat} (hfind : s.findInSwimlaneTop h0 target = some prev0)
    {v : Vote} (hlk : alookup h0 s.votes = some v) :
    ∃ v2, alookup prev0 s.votes = some v2 ∧ v2.sender = v.sender := by
  unfold State.findInSwimlaneTop at hfind
  rw [hlk] at hfind
  have hfind2 : findInSwimlane s.votes (v.seq_number + 1) h0 target = some prev0 := hfind
  exact findInSwimlane_sender s.votes hinv _ h0 target prev0 v hfind2 hlk

theorem addVote_ok_pan_ev {hashFn : WireVote → Nat} {s : State} {wv : WireVote} {s' : State}
    (hok : addVote hashFn s wv = AddVoteRes.ok s') :
    ∃ obs0 obs1 sMid newObs vote,
      s.validateVote wv = some Option.none ∧
      s.panorama[wv.sender]? = some obs0 ∧
      wv.panorama[wv.sender]? = some obs1 ∧
      updateObs hashFn s wv obs0 obs1 = some (sMid, newObs) ∧
      s'.evidence = sMid.evidence ∧
      s'.panorama = s.panorama.set wv.sender newObs ∧
      s'.votes = hmInsert (hashFn wv) vote s.votes ∧
      vote.seq_number = wv.seq_number ∧ vote.sender = wv.sender := by
  obtain ⟨s1, fc, vote, optValues, hval, hup, hfc, hvn, hw, he, hp, hv, hb⟩ := addVote_ok_inv hok
  obtain ⟨_, _, hvs, hvsnd⟩ := voteNew_inv hvn
  obtain ⟨obs0, obs1, sMid, newObs, h0, h1, h2, hs1⟩ := updatePanorama_inv hup
  have hf := updateObs_fields h2
  refine ⟨obs0, obs1, sMid, newObs, vote, hval, h0, h1, h2, ?_, ?_, ?_, hvs, hvsnd⟩
  · rw [he, hs1]
  · rw [hp, hs1]
    have : sMid.panorama = s.panorama := hf.2.2.2
    rw [this]
  · rw [hv, hs1]
    have : sMid.votes = s.votes := hf.1
    rw [this]

/-- C1: after two successfully added conflicting votes by the same sender
with the same sequence number, the state holds exactly one evidence entry
for that sender and its panorama marks the sender Faulty; the initial
state must satisfy the basic well-formedness invariants. -/
theorem C1_equivocation_detected (hashFn : WireVote → Nat) (s0 sA sB : State)
    (wv1 wv2 : WireVote)
    (hsk : skipListInv s0.votes)
    (hfaulty : faultyInv s0)
    (hpansnd : panSenderInv s0)
    (hnd : keysNodup s0.evidence)
    (h1 : addVote hashFn s0 wv1 = AddVoteRes.ok sA)
    (h2 : addVote hashFn sA wv2 = AddVoteRes.ok sB)
    (hsnd : wv2.sender = wv1.sender)
    (hseq : wv2.seq_number = wv1.seq_number)
    (hhash : hashFn wv1 ≠ hashFn wv2) :
    countKey wv1.sender sB.evidence = 1 ∧
    sB.panorama[wv1.sender]? = some Observation.faulty := by
  obtain ⟨obs0, obs1, sMid1, newObs1, vote1, hval1, hpan0, hpan1, hupd1, hevA, hpansetA,
    hvotesA, hv1seq, hv1snd⟩ := addVote_ok_pan_ev h1
  have hlt1 : wv1.sender < s0.panorama.length := getElem?_some_lt hpan0
  have hpanA : sA.panorama[wv1.sender]? = some newObs1 := by
    rw [hpansetA]
    exact List.getElem?_set_self hlt1
  -- after the first add: either the sender is already Faulty with evidence,
  -- or the observation advanced to Correct of the first hash.
  have hS : (sA.panorama[wv1.sender]? = some Observation.faulty ∧
        sA.hasEvidence wv1.sender = true ∧ keysNodup sA.evidence) ∨
      (sA.panorama[wv1.sender]? = some (Observation.correct (hashFn wv1)) ∧
        sA.evidence = s0.evidence ∧ keysNodup sA.evidence) := by
    rcases updateObs_cases hupd1 with ⟨hc1, hcs, hcn⟩ | ⟨_, _, hcs, hcn⟩ |
      ⟨hash0, hcobs, hcneq, hcn, hcev⟩
    · left
      have hevEq : sA.evidence = s0.evidence := by rw [hevA, hcs]
      refine ⟨by rw [hpanA, hcn], ?_, by rw [hevEq]; exact hnd⟩
      rw [hasEvidence_congr hevEq]
      exact hfaulty wv1.sender (by rw [hpan0, hc1])
    · right
      have hevEq : sA.evidence = s0.evidence := by rw [hevA, hcs]
      exact ⟨by rw [hpanA, hcn], hevEq, by rw [hevEq]; exact hnd⟩
    · left
      refine ⟨by rw [hpanA, hcn], ?_, ?_⟩
      · rcases hcev with ⟨hhasev, hcs⟩ | ⟨hnoev, prev0, wvote0, hfind, hwv0, hcs⟩
        · rw [hasEvidence_congr (by rw [hevA, hcs] : sA.evidence = s0.evidence)]
          exact hhasev
        · obtain ⟨vh0, hlkh0, hsndh0⟩ := hpansnd wv1.sender hash0 (by rw [hpan0, hcobs])
          obtain ⟨vprev, hlkprev, hsndprev⟩ := findInSwimlaneTop_sender hsk hfind hlkh0
          obtain ⟨vp2, hlkp2, hsndp2⟩ := wireVote_sender hwv0
          have hvp : vp2 = vprev := by
            rw [hlkp2] at hlkprev
            exact Option.some.inj hlkprev
          have hperp : (Evidence.equivocation wvote0 wv1).perpetrator = wv1.sender := by
            show wvote0.sender = wv1.sender
            rw [hsndp2, hvp, hsndprev, hsndh0]
          unfold State.hasEvidence
          rw [hevA, hcs]
          show (alookup wv1.sender (hmInsert (Evidence.equivocation wvote0 wv1).perpetrator
            (Evidence.equivocation wvote0 wv1) s0.evidence)).isSome = true
          rw [hperp, alookup_hmInsert_self]
          rfl
      · rcases hcev with ⟨hhasev, hcs⟩ | ⟨hnoev, prev0, wvote0, hfind, hwv0, hcs⟩
        · rw [(by rw [hevA, hcs] : sA.evidence = s0.evidence)]
          exact hnd
        · rw [hevA, hcs]
          exact keysNodup_hmInsert _ _ hnd
  -- second add
  obtain ⟨obs0', obs1', sMid2, newObs2, vote2, hval2, hpan0', hpan1', hupd2, hevB, hpansetB,
    hvotesB, hv2seq, hv2snd⟩ := addVote_ok_pan_ev h2
  have hlt2 : wv2.sender < sA.panorama.length := getElem?_some_lt hpan0'
  have hpanB : sB.panorama[wv2.sender]? = some newObs2 := by
    rw [hpansetB]
    exact List.getElem?_set_self hlt2
  rw [hsnd] at hpanB
  have hlkA : alookup (hashFn wv1) sA.votes = some vote1 := by
    rw [hvotesA]
    exact alookup_hmInsert_self _ _ _
  rcases hS with ⟨hSpan, hSev, hSnd⟩ | ⟨hSpan, hSev, hSnd⟩
  · -- sender already Faulty: second update keeps Faulty and evidence untouched
    have hobs0' : obs0' = Observation.faulty := by
      rw [hsnd, hSpan] at hpan0'
      exact (Option.some.inj hpan0').symm
    rcases updateObs_cases hupd2 with ⟨hc1, hcs, hcn⟩ | ⟨hcne, _, hcs, hcn⟩ |
      ⟨hash0', hcobs, hcneq, hcn, hcev⟩
    · have hevEq : sB.evidence = sA.evidence := by rw [hevB, hcs]
      obtain ⟨e, he⟩ := Option.isSome_iff_exists.mp hSev
      constructor
      · rw [hevEq]
        exact countKey_eq_one_of_nodup hSnd he
      · rw [hpanB, hcn]
    · exact absurd hobs0' hcne
    · rw [hobs0'] at hcobs
      exact absurd hcobs (by simp)
  · -- sender moved to Correct of the first hash
    have hobs0' : obs0' = Observation.correct (hashFn wv1) := by
      rw [hsnd, hSpan] at hpan0'
      exact (Option.some.inj hpan0').symm
    rcases updateObs_cases hupd2 with ⟨hc1, hcs, hcn⟩ | ⟨hcne, hceq, hcs, hcn⟩ |
      ⟨hash0', hcobs, hcneq, hcn, hcev⟩
    · rw [hobs0'] at hc1
      exact absurd hc1 (by simp)
    · -- obs1' would equal Correct of the first hash: contradicts the
      -- sequence-number validation of the second vote
      exfalso
      obtain ⟨_, obsV, hobsV, hseqcase⟩ := validateVote_ok_inv hval2
      have hobsVeq : obsV = obs1' := by
        rw [hpan1'] at hobsV
        exact (Option.some.inj hobsV).symm
      rw [hobsVeq, ← hceq, hobs0'] at hseqcase
      rcases hseqcase with ⟨hcon, _⟩ | ⟨hV, v0, hcon, hlkV, hseqV⟩
      · exact absurd hcon (by simp)
      · have hVeq : hV = hashFn wv1 := (Observation.correct.inj hcon).symm
        rw [hVeq, hlkA] at hlkV
        obtain rfl := Option.some.inj hlkV
        omega
    · -- the equivocation branch: Faulty is recorded, evidence keyed by the sender
      constructor
      · rcases hcev with ⟨hhasev, hcs⟩ | ⟨hnoev, prev0', wvote0', hfind', hwv0', hcs⟩
        · have hevEq : sB.evidence = sA.evidence := by rw [hevB, hcs]
          rw [hsnd] at hhasev
          obtain ⟨e, he⟩ := Option.isSome_iff_exists.mp hhasev
          rw [hevEq]
          exact countKey_eq_one_of_nodup hSnd he
        · have hash0eq : hash0' = hashFn wv1 := by
            rw [hobs0'] at hcobs
            exact (Observation.correct.inj hcobs).symm
          have hveq : vote1.seq_number = wv2.seq_number := by omega
          have hprev : prev0' = hashFn wv1 := by
            rw [hash0eq] at hfind'
            unfold State.findInSwimlaneTop at hfind'
            rw [hlkA] at hfind'
            have hfind2 : findInSwimlane sA.votes (vote1.seq_number + 1) (hashFn wv1)
                wv2.seq_number = some prev0' := hfind'
            have hb : findInSwimlane sA.votes (vote1.seq_number + 1) (hashFn wv1)
                wv2.seq_number = some (hashFn wv1) := by
              simp only [findInSwimlane, hlkA]
              rw [if_pos hveq]
            exact (Option.some.inj (hb.symm.trans hfind2)).symm
          rw [hprev] at hwv0'
          obtain ⟨vp, hlkp, hsndp⟩ := wireVote_sender hwv0'
          have hvp : vp = vote1 := by
            rw [hlkA] at hlkp
            exact (Option.some.inj hlkp).symm
          have hperp : (Evidence.equivocation wvote0' wv2).perpetrator = wv1.sender := by
            show wvote0'.sender = wv1.sender
            rw [hsndp, hvp, hv1snd]
          rw [hevB, hcs]
          show countKey wv1.sender
            ((sA.addEvidence (Evidence.equivocation wvote0' wv2)).evidence) = 1
          unfold State.addEvidence
          rw [hperp]
          exact countKey_hmInsert_self _ _ _
      · rw [hpanB, hcn]

theorem skipListInv_nil : skipListInv ([] : List (Nat × Vote)) := by
  intro h v hlk i hi hget
  simp [alookup] at hlk

theorem faultyInv_new (w : List Nat) : faultyInv (State.new w) := by
  intro i hi
  simp only [State.new, List.getElem?_replicate] at hi
  by_cases hlt : i < w.length
  · rw [if_pos hlt] at hi
    exact absurd (Option.some.inj hi) (by simp)
  · rw [if_neg hlt] at hi
    exact Option.noConfusion hi

theorem panSenderInv_new (w : List Nat) : panSenderInv (State.new w) := by
  intro i h hi
  simp only [State.new, List.getElem?_replicate] at hi
  by_cases hlt : i < w.length
  · rw [if_pos hlt] at hi
    exact absurd (Option.some.inj hi) (by simp)
  · rw [if_neg hlt] at hi
    exact Option.noConfusion hi

def e1hf : WireVote → Nat := fun wv => if wv.values = some [1] then 1 else 2

def e1wv1 : WireVote := ⟨[Observation.none], 0, some [1], 0⟩

def e1wv2 : WireVote := ⟨[Observation.none], 0, some [2], 0⟩

def e1Vote1 : Vote :=
  { panorama := [Observation.none], seq_number := 0, sender := 0, block := 1, skip_idx := [] }

def e1Vote2 : Vote :=
  { panorama := [Observation.none], seq_number := 0, sender := 0, block := 2, skip_idx := [] }

def e1sA : State :=
  { weights := [1],
    votes := [(1, e1Vote1)],
    blocks := [(1, { parent := Option.none, height := 0, skip_idx := [], values := [1] })],
    evidence := [],
    panorama := [Observation.correct 1] }

def e1sB : State :=
  { weights := [1],
    votes := [(2, e1Vote2), (1, e1Vote1)],
    blocks := [(2, { parent := Option.none, height := 0, skip_idx := [], values := [2] }),
               (1, { parent := Option.none, height := 0, skip_idx := [], values := [1] })],
    evidence := [(0, Evidence.equivocation e1wv1 e1wv2)],
    panorama := [Observation.faulty] }

theorem C1_witness :
    addVote e1hf (State.new [1]) e1wv1 = AddVoteRes.ok e1sA ∧
    addVote e1hf e1sA e1wv2 = AddVoteRes.ok e1sB ∧
    countKey 0 e1sB.evidence = 1 ∧
    e1sB.panorama[0]? = some Observation.faulty := by
  have hmain :=
    C1_equivocation_detected e1hf (State.new [1]) e1sA e1sB e1wv1 e1wv2
      skipListInv_nil (faultyInv_new [1]) (panSenderInv_new [1])
      (by simp [keysNodup, State.new]) (by decide) (by decide) rfl rfl (by decide)
  exact ⟨by decide, by decide, hmain.1, hmain.2⟩
